import Mathlib

/-!
Semantic equality of bool values and the private-network sweeper.

A shallow embedding of two Go functions of the provider:

* `ValueSemanticEqualityBool`
  (`vendor/.../terraform-plugin-framework/internal/fwschemadata/value_semantic_equality_bool.go`),
* `testSweepCloudNetworkPrivate`
  (`ovh/resource_ovh_publiccloud_private_network_test.go`).

Go interface values become `Option Value` (`none` is the nil interface), the method set of
a dynamic type becomes a table from type names to an optional hook, and every call that
leaves the function (a hook, a log line, an HTTP request) is recorded in an event list that
the function returns next to its result.
-/

set_option autoImplicit false

namespace Fwschemadata

/-! ## Diagnostics -/

/-- Modelled from the spec: the severity of a `Diagnostic`, `{Trace, Warning, Error}`
(§3); package `diag` is not part of the sources. -/
inductive Severity where
  | Trace
  | Warning
  | Error
  deriving DecidableEq, Repr

/-- Modelled from the spec: `Diagnostic` is
`{ severity, summary, detail, path }` (§3); package `diag` is not part of the sources. -/
structure Diagnostic where
  severity : Severity
  summary : String
  detail : String
  path : List String
  deriving DecidableEq, Repr

/-- Modelled from the spec: the diagnostics of a response are an "ordered sequence of
Diagnostic" (§3). -/
abbrev Diagnostics := List Diagnostic

/-- Modelled from the spec: `Diagnostics.Append` of package `diag`, which is not part of
the sources. The spec's collector "accumulates" entries in an "ordered sequence" and they
are "returned, never discarded", so the new entries are put behind the old ones. The
theorems below speak about the appended sequence through membership and order only. -/
def Diagnostics.Append (diags : Diagnostics) (new : Diagnostics) : Diagnostics :=
  diags ++ new

/-! ## Values -/

/-- The state of a value: the spec's `Null`, `Unknown` and known kinds (§3). -/
inductive ValueState where
  | Null
  | Unknown
  | Known
  deriving DecidableEq, Repr

/-- A value as `ValueSemanticEqualityBool` sees it: its dynamic (declared) type, its state
and its bool payload. -/
structure Value where
  typeName : String
  state : ValueState
  value : Bool
  deriving DecidableEq, Repr

/-- The raw representation of a bool value. -/
inductive Raw where
  | null
  | unknown
  | bool (b : Bool)
  deriving DecidableEq, Repr

/-- The raw representation a value carries. -/
def Value.rawValue (v : Value) : Raw :=
  match v.state with
  | ValueState.Null => Raw.null
  | ValueState.Unknown => Raw.unknown
  | ValueState.Known => Raw.bool v.value

/-- The method `BoolSemanticEquals(ctx, priorValuable) (bool, diag.Diagnostics)`: the first
argument is the receiver, the second the value handed in. -/
abbrev Hook := Value → Value → Bool × Diagnostics

/-- The method sets of the dynamic types: `impls t = some h` when type `t` implements
`basetypes.BoolValuableWithSemanticEquals` with method body `h`, `none` when it does not. -/
abbrev Impls := String → Option Hook

/-- A value that passed the type assertion to `basetypes.BoolValuableWithSemanticEquals`:
the value together with the method of its dynamic type. -/
structure BoolValuableWithSemanticEquals where
  val : Value
  BoolSemanticEquals : Hook

/-- The type assertion `v.(basetypes.BoolValuableWithSemanticEquals)`: it fails on the nil
interface and on a dynamic type without the method. -/
def assertBoolValuableWithSemanticEquals (impls : Impls) :
    Option Value → Option BoolValuableWithSemanticEquals
  | none => none
  | some v =>
    match impls v.typeName with
    | none => none
    | some h => some ⟨v, h⟩

/-- The struct `ValueSemanticEqualityRequest`: the fields the function reads. -/
structure ValueSemanticEqualityRequest where
  Path : List String
  PriorValue : Option Value
  ProposedNewValue : Option Value

/-- The struct `ValueSemanticEqualityResponse`. -/
structure ValueSemanticEqualityResponse where
  NewValue : Option Value
  Diagnostics : Diagnostics
  deriving DecidableEq, Repr

/-- What leaves `ValueSemanticEqualityBool` while it runs. -/
inductive Effect where
  /-- The call `logging.FrameworkTrace(ctx, msg, ...)` with `v.String()` as value type -/
  | FrameworkTrace (msg : String) (v : Value)
  /-- The call `receiver.BoolSemanticEquals(ctx, arg)` and what it returned -/
  | BoolSemanticEquals (receiver : Value) (arg : Value) (ret : Bool × Diagnostics)
  deriving DecidableEq, Repr

/-- The hook invocations among the effects. -/
def Effect.isHookCall : Effect → Bool
  | Effect.FrameworkTrace _ _ => false
  | Effect.BoolSemanticEquals _ _ _ => true

/-- The function `ValueSemanticEqualityBool(ctx, req, resp)`: the response after the call and the
effects in the order they happened. -/
def ValueSemanticEqualityBool (impls : Impls) (req : ValueSemanticEqualityRequest)
    (resp : ValueSemanticEqualityResponse) : ValueSemanticEqualityResponse × List Effect :=
  match assertBoolValuableWithSemanticEquals impls req.PriorValue with
  -- No changes required if the interface is not implemented.
  | none => (resp, [])
  | some priorValuable =>
    match assertBoolValuableWithSemanticEquals impls req.ProposedNewValue with
    -- No changes required if the interface is not implemented.
    | none => (resp, [])
    | some proposedNewValuable =>
      let ret := proposedNewValuable.BoolSemanticEquals proposedNewValuable.val priorValuable.val
      let usePriorValue := ret.1
      let diags := ret.2
      let effects :=
        [ Effect.FrameworkTrace "Calling provider defined type-based SemanticEquals"
            proposedNewValuable.val,
          Effect.BoolSemanticEquals proposedNewValuable.val priorValuable.val ret,
          Effect.FrameworkTrace "Called provider defined type-based SemanticEquals"
            proposedNewValuable.val ]
      let resp1 := { resp with Diagnostics := resp.Diagnostics.Append diags }
      if !usePriorValue then
        (resp1, effects)
      else
        ({ resp1 with NewValue := some priorValuable.val }, effects)

end Fwschemadata

namespace Ovh

/-! ## The remote API behind `client.Get` and `client.Delete` -/

/-- The function `strings.HasPrefix(s, pre)`. -/
def HasPrefix (s : String) (pre : String) : Bool :=
  pre.data.isPrefixOf s.data

/-- The record the service keeps for one private network of the project. -/
structure PrivateNetwork where
  name : String
  subnets : List String
  deriving DecidableEq, Repr

/-- The state of the service for the project: the ids the network listing returns, the
record behind each network id, and the fate of the coming requests (`true`: the request
fails and changes nothing; once the list is used up no further failure is injected). -/
structure Api where
  networkIds : List String
  network : String → Option PrivateNetwork
  faults : List Bool

/-- Why a request failed. -/
inductive ApiError where
  | fault
  | notFound
  deriving DecidableEq, Repr

/-- The struct `PublicCloudPrivateNetworkResponse`: the field the sweeper reads. -/
structure PublicCloudPrivateNetworkResponse where
  Name : String
  deriving DecidableEq, Repr

/-- One request sent by the sweeper, with its outcome. -/
inductive Event where
  /-- The request `GET /cloud/project/P/network/private` -/
  | listNetworks (res : Option (List String))
  /-- The request `GET /cloud/project/P/network/private/n`, with the name that was fetched -/
  | getNetwork (n : String) (res : Option String)
  /-- The request `GET /cloud/project/P/network/private/n/subnet` -/
  | listSubnets (n : String) (res : Option (List String))
  /-- The request `DELETE /cloud/project/P/network/private/n/subnet/s` -/
  | deleteSubnet (n : String) (s : String) (ok : Bool)
  /-- The request `DELETE /cloud/project/P/network/private/n` -/
  | deleteNetwork (n : String) (ok : Bool)
  deriving DecidableEq, Repr

/-- The network a Delete request is aimed at. -/
def Event.deleteTarget : Event → Option String
  | Event.deleteSubnet n _ _ => some n
  | Event.deleteNetwork n _ => some n
  | _ => none

/-- Take the fate of the next request off the list. -/
def Api.next (api : Api) : Bool × Api :=
  match api.faults with
  | [] => (false, api)
  | f :: fs => (f, { api with faults := fs })

/-- The call `client.Get` on the network listing of the project. -/
def getNetworkIds (api : Api) : Except ApiError (List String) × Api :=
  let (failed, api1) := api.next
  if failed then (Except.error ApiError.fault, api1)
  else (Except.ok api1.networkIds, api1)

/-- The call `client.Get` on network `n` of the project. -/
def getNetwork (n : String) (api : Api) :
    Except ApiError PublicCloudPrivateNetworkResponse × Api :=
  let (failed, api1) := api.next
  if failed then (Except.error ApiError.fault, api1)
  else
    match api1.network n with
    | none => (Except.error ApiError.notFound, api1)
    | some net => (Except.ok ⟨net.name⟩, api1)

/-- The call `client.Get` on the subnet listing of network `n`. -/
def getSubnetIds (n : String) (api : Api) : Except ApiError (List String) × Api :=
  let (failed, api1) := api.next
  if failed then (Except.error ApiError.fault, api1)
  else
    match api1.network n with
    | none => (Except.error ApiError.notFound, api1)
    | some net => (Except.ok net.subnets, api1)

/-- The call `client.Delete` on subnet `s` of network `n`. -/
def deleteSubnet (n : String) (s : String) (api : Api) : Option ApiError × Api :=
  let (failed, api1) := api.next
  if failed then (some ApiError.fault, api1)
  else
    match api1.network n with
    | none => (some ApiError.notFound, api1)
    | some net =>
      if s ∈ net.subnets then
        (none, { api1 with
          network := fun m =>
            if m = n then some { net with subnets := net.subnets.filter (fun t => t ≠ s) }
            else api1.network m })
      else (some ApiError.notFound, api1)

/-- The call `client.Delete` on network `n`. -/
def deleteNetwork (n : String) (api : Api) : Option ApiError × Api :=
  let (failed, api1) := api.next
  if failed then (some ApiError.fault, api1)
  else
    match api1.network n with
    | none => (some ApiError.notFound, api1)
    | some _ =>
      (none, { api1 with
        networkIds := api1.networkIds.filter (fun m => m ≠ n)
        network := fun m => if m = n then none else api1.network m })

/-! ## The sweeper -/

/-- The errors the sweeper builds, one constructor per `fmt.Errorf` site, plus the client's
own error passed on as it is. -/
inductive SweepError where
  | gettingClient (err : String)
  | vrackMustBeSet
  | publicCloudMustBeSet
  | listingNetworks (projectId : String) (err : ApiError)
  | gettingNetwork (n : String) (projectId : String) (err : ApiError)
  | listingSubnets (projectId : String) (err : ApiError)
  | client (err : ApiError)
  deriving DecidableEq, Repr

/-- The struct `resource.RetryError`. -/
structure RetryError where
  Err : SweepError
  Retryable : Bool
  deriving DecidableEq, Repr

/-- The function `resource.RetryableError(err)`. -/
def RetryableError (err : SweepError) : RetryError := ⟨err, true⟩

/-- The result of a step that talks to the service: its value, the state of the service
after it, and the requests it sent. -/
abbrev Step (α : Type) := α × Api × List Event

/-- The loop `for _, s := range subnetIds` of the retried function: it stops at the first
Delete that fails. -/
def deleteSubnets (n : String) : List String → Api → Step (Option RetryError)
  | [], api => (none, api, [])
  | s :: rest, api =>
    match deleteSubnet n s api with
    | (some err, api1) =>
      (some (RetryableError (SweepError.client err)), api1, [Event.deleteSubnet n s false])
    | (none, api1) =>
      let (r, api2, evs) := deleteSubnets n rest api1
      (r, api2, Event.deleteSubnet n s true :: evs)

/-- The function handed to `resource.Retry`: one attempt at the cascade delete of
network `n`. -/
def cascadeDelete (projectId : String) (n : String) (api : Api) : Step (Option RetryError) :=
  match getSubnetIds n api with
  | (Except.error err, api1) =>
    (some (RetryableError (SweepError.listingSubnets projectId err)), api1,
      [Event.listSubnets n none])
  | (Except.ok subnetIds, api1) =>
    match deleteSubnets n subnetIds api1 with
    | (some rerr, api2, evs) => (some rerr, api2, Event.listSubnets n (some subnetIds) :: evs)
    | (none, api2, evs) =>
      match deleteNetwork n api2 with
      | (some err, api3) =>
        (some (RetryableError (SweepError.client err)), api3,
          Event.listSubnets n (some subnetIds) :: (evs ++ [Event.deleteNetwork n false]))
      | (none, api3) =>
        -- Successful cascade delete
        (none, api3,
          Event.listSubnets n (some subnetIds) :: (evs ++ [Event.deleteNetwork n true]))

/-- Modelled from the spec: `resource.Retry(timeout, f)` of the plugin SDK, which is not
part of the sources; the spec only names the routine a "cleanup/retry sweeper". `f` is run
again while it returns a retryable error; the time budget is the number of attempts that
may still follow the first one, and when it is used up the last error is returned. -/
def Retry : Nat → (Api → Step (Option RetryError)) → Api → Step (Option SweepError)
  | 0, f, api =>
    match f api with
    | (none, api1, evs) => (none, api1, evs)
    | (some rerr, api1, evs) => (some rerr.Err, api1, evs)
  | k + 1, f, api =>
    match f api with
    | (none, api1, evs) => (none, api1, evs)
    | (some rerr, api1, evs) =>
      if rerr.Retryable then
        let (r, api2, evs2) := Retry k f api1
        (r, api2, evs ++ evs2)
      else (some rerr.Err, api1, evs)

/-- The loop `for _, n := range networkIds` of `testSweepCloudNetworkPrivate`. -/
def sweepNetworks ( test_prefix : String) (budget : Nat) (projectId : String) :
    List String → Api → Step (Option SweepError)
  | [], api => (none, api, [])
  | n :: rest, api =>
    match getNetwork n api with
    | (Except.error err, api1) =>
      (some (SweepError.gettingNetwork n projectId err), api1, [Event.getNetwork n none])
    | (Except.ok r, api1) =>
      if !HasPrefix r.Name test_prefix then
        let (res, api2, evs) := sweepNetworks test_prefix budget projectId rest api1
        (res, api2, Event.getNetwork n (some r.Name) :: evs)
      else
        match Retry budget (cascadeDelete projectId n) api1 with
        | (some err, api2, evs) => (some err, api2, Event.getNetwork n (some r.Name) :: evs)
        | (none, api2, evs) =>
          let (res, api3, evs2) := sweepNetworks test_prefix budget projectId rest api2
          (res, api3, Event.getNetwork n (some r.Name) :: (evs ++ evs2))

/-- What the sweeper reads besides the service: the outcome of `sharedClientForRegion` and
the two environment variables. -/
structure Env where
  clientErr : Option String
  OVH_VRACK : String
  OVH_PUBLIC_CLOUD : String

/-- The function `testSweepCloudNetworkPrivate(region)`; `test_prefix` is a constant of the package
declared outside this file, `budget` bounds the retries of `resource.Retry`. -/
def testSweepCloudNetworkPrivate ( test_prefix : String) (budget : Nat) (env : Env)
    (api : Api) : Step (Option SweepError) :=
  match env.clientErr with
  | some err => (some (SweepError.gettingClient err), api, [])
  | none =>
    let vrack := env.OVH_VRACK
    if vrack = "" then (some SweepError.vrackMustBeSet, api, [])
    else
      let projectId := env.OVH_PUBLIC_CLOUD
      if projectId = "" then (some SweepError.publicCloudMustBeSet, api, [])
      else
        match getNetworkIds api with
        | (Except.error err, api1) =>
          (some (SweepError.listingNetworks projectId err), api1, [Event.listNetworks none])
        | (Except.ok networkIds, api1) =>
          let (res, api2, evs) := sweepNetworks test_prefix budget projectId networkIds api1
          (res, api2, Event.listNetworks (some networkIds) :: evs)

/-- Every Delete in the log comes after a fetch of its target network in the same log, and
the name that fetch returned starts with `test_prefix`. -/
def DeletesGuarded ( test_prefix : String) (log : List Event) : Prop :=
  ∀ before e after n, log = before ++ e :: after → e.deleteTarget = some n →
    ∃ name, Event.getNetwork n (some name) ∈ before ∧ HasPrefix name test_prefix = true

end Ovh

/-! ## Concrete inputs -/

namespace Fwschemadata

/-- An Error diagnostic as a custom type reports it. -/
def errorDiag : Diagnostic :=
  ⟨Severity.Error, "Semantic Equality Check Error", "unexpected value type", ["flag"]⟩

/-- A Warning diagnostic. -/
def warningDiag : Diagnostic :=
  ⟨Severity.Warning, "Semantic Equality Check Warning", "deprecated spelling", ["flag"]⟩

/-- A Trace diagnostic. -/
def traceDiag : Diagnostic :=
  ⟨Severity.Trace, "Semantic Equality Check", "hook was invoked", ["flag"]⟩

/-- A hook that always answers "use the prior value" and reports an Error. -/
def hookTrueError : Hook := fun _ _ => (true, [errorDiag])

/-- A hook that always answers "use the prior value" and reports a Warning. -/
def hookTrueWarning : Hook := fun _ _ => (true, [warningDiag])

/-- A hook that always answers "use the prior value" and reports a Trace entry. -/
def hookTrueTrace : Hook := fun _ _ => (true, [traceDiag])

/-- A hook that compares the raw values and reports a Trace entry. -/
def hookRawTrace : Hook := fun x y => (decide (x.rawValue = y.rawValue), [traceDiag])

/-- A known `true` of the framework's own bool type, which has no hook. -/
def plainTrue : Value := ⟨"basetypes.BoolValue", ValueState.Known, true⟩

/-- A known `true` of a custom type whose hook reports an Error. -/
def errTrue : Value := ⟨"ErrBool", ValueState.Known, true⟩

/-- A known `false` of a custom type whose hook reports an Error. -/
def errFalse : Value := ⟨"ErrBool", ValueState.Known, false⟩

/-- A known `true` of a custom type whose hook reports a Warning. -/
def warnTrue : Value := ⟨"WarnBool", ValueState.Known, true⟩

/-- A known `true` of a custom type whose hook reports a Trace entry. -/
def traceTrue : Value := ⟨"TraceBool", ValueState.Known, true⟩

/-- A known `false` of a custom type whose hook reports a Trace entry. -/
def traceFalse : Value := ⟨"TraceBool", ValueState.Known, false⟩

/-- An unknown value of a custom type whose hook reports a Trace entry. -/
def traceUnknown : Value := ⟨"TraceBool", ValueState.Unknown, false⟩

/-- A known `true` of a custom type whose hook compares raw values. -/
def rawTrue : Value := ⟨"RawBool", ValueState.Known, true⟩

/-- A known `false` of a custom type whose hook compares raw values. -/
def rawFalse : Value := ⟨"RawBool", ValueState.Known, false⟩

/-- Method sets: `ErrBool`, `WarnBool`, `TraceBool` and `RawBool` implement the hook,
every other type (`basetypes.BoolValue` among them) does not. -/
def exampleImpls : Impls := fun t =>
  if t = "ErrBool" then some hookTrueError
  else if t = "WarnBool" then some hookTrueWarning
  else if t = "TraceBool" then some hookTrueTrace
  else if t = "RawBool" then some hookRawTrace
  else none

end Fwschemadata

namespace Ovh

/-- A project with a test network `net-a` (two subnets) and a production network `net-b`;
the fourth request, the first subnet Delete, fails. -/
def exampleApi : Api :=
  { networkIds := ["net-a", "net-b"]
    network := fun n =>
      if n = "net-a" then some ⟨"terraform_testacc_private_net", ["s1", "s2"]⟩
      else if n = "net-b" then some ⟨"production", ["s3"]⟩
      else none
    faults := [false, false, false, true] }

/-- A working client and both environment variables set. -/
def exampleEnv : Env := ⟨none, "pn-000000", "project-1"⟩

end Ovh

/-! ## Theorems on `ValueSemanticEqualityBool` -/

namespace Fwschemadata

theorem assert_some (impls : Impls) (v : Value) (h : Hook)
    (hv : impls v.typeName = some h) :
    assertBoolValuableWithSemanticEquals impls (some v) = some ⟨v, h⟩ := by
  simp [assertBoolValuableWithSemanticEquals, hv]

theorem assert_none (impls : Impls) (v : Value) (hv : impls v.typeName = none) :
    assertBoolValuableWithSemanticEquals impls (some v) = none := by
  simp [assertBoolValuableWithSemanticEquals, hv]

/-- The whole outcome of the call when both values implement the hook. -/
theorem run_both (impls : Impls) (path : List String) (prior proposed : Value)
    (hp hq : Hook) (resp : ValueSemanticEqualityResponse)
    (hprior : impls prior.typeName = some hp) (hprop : impls proposed.typeName = some hq) :
    ValueSemanticEqualityBool impls ⟨path, some prior, some proposed⟩ resp =
      (⟨if (hq proposed prior).1 = true then some prior else resp.NewValue,
        resp.Diagnostics ++ (hq proposed prior).2⟩,
       [ Effect.FrameworkTrace "Calling provider defined type-based SemanticEquals" proposed,
         Effect.BoolSemanticEquals proposed prior (hq proposed prior),
         Effect.FrameworkTrace "Called provider defined type-based SemanticEquals" proposed ]) := by
  simp only [ValueSemanticEqualityBool, assert_some impls prior hp hprior,
    assert_some impls proposed hq hprop, Diagnostics.Append]
  cases hb : (hq proposed prior).1 <;> simp

/-- The whole outcome of the call when one of the two type assertions fails. -/
theorem run_not_both (impls : Impls) (req : ValueSemanticEqualityRequest)
    (resp : ValueSemanticEqualityResponse)
    (h : (assertBoolValuableWithSemanticEquals impls req.PriorValue).isNone = true ∨
      (assertBoolValuableWithSemanticEquals impls req.ProposedNewValue).isNone = true) :
    ValueSemanticEqualityBool impls req resp = (resp, []) := by
  unfold ValueSemanticEqualityBool
  cases hp : assertBoolValuableWithSemanticEquals impls req.PriorValue with
  | none => rfl
  | some pv =>
    cases hq : assertBoolValuableWithSemanticEquals impls req.ProposedNewValue with
    | none => rfl
    | some qv => simp [hp, hq] at h

/-- C1: when both values implement the hook, the only hook invocation is the proposed
value's hook with the prior value as argument, and the new value follows the hook's boolean
alone, whatever diagnostics come with it: the prior value on `true`, the value the response
held on entry on `false`. -/
theorem hook_boolean_decides_new_value (impls : Impls) (path : List String)
    (prior proposed : Value) (hp hq : Hook) (resp : ValueSemanticEqualityResponse)
    (hprior : impls prior.typeName = some hp) (hprop : impls proposed.typeName = some hq) :
    ((ValueSemanticEqualityBool impls ⟨path, some prior, some proposed⟩ resp).2.filter
        Effect.isHookCall
      = [Effect.BoolSemanticEquals proposed prior (hq proposed prior)]) ∧
    ((hq proposed prior).1 = true →
      (ValueSemanticEqualityBool impls ⟨path, some prior, some proposed⟩ resp).1.NewValue
        = some prior) ∧
    ((hq proposed prior).1 = false →
      (ValueSemanticEqualityBool impls ⟨path, some prior, some proposed⟩ resp).1.NewValue
        = resp.NewValue) := by
  rw [run_both impls path prior proposed hp hq resp hprior hprop]
  refine ⟨by simp [Effect.isHookCall], ?_, ?_⟩
  · intro hb; simp [hb]
  · intro hb; simp [hb]

/-- C1 at a concrete input: a hook that answers `true` next to a Trace entry puts the
prior value into the response, and it is the proposed value's hook that ran. -/
theorem hook_boolean_decides_new_value_witness :
    exampleImpls traceFalse.typeName = some hookTrueTrace ∧
    exampleImpls traceTrue.typeName = some hookTrueTrace ∧
    (ValueSemanticEqualityBool exampleImpls ⟨[], some traceFalse, some traceTrue⟩
        ⟨some traceTrue, []⟩).1.NewValue = some traceFalse ∧
    (ValueSemanticEqualityBool exampleImpls ⟨[], some traceFalse, some traceTrue⟩
        ⟨some traceTrue, []⟩).2.filter Effect.isHookCall
      = [Effect.BoolSemanticEquals traceTrue traceFalse (true, [traceDiag])] :=
  ⟨rfl, rfl,
    (hook_boolean_decides_new_value exampleImpls [] traceFalse traceTrue hookTrueTrace
      hookTrueTrace ⟨some traceTrue, []⟩ rfl rfl).2.1 rfl,
    (hook_boolean_decides_new_value exampleImpls [] traceFalse traceTrue hookTrueTrace
      hookTrueTrace ⟨some traceTrue, []⟩ rfl rfl).1⟩

/-- C2 as amended: when both values implement the hook and the hook returns an Error
diagnostic, that diagnostic is in the response, and the new value still follows the hook's
boolean: the prior value on `true`, the value held on entry on `false`. -/
theorem error_diagnostic_kept_boolean_still_decides (impls : Impls) (path : List String)
    (prior proposed : Value) (hp hq : Hook) (resp : ValueSemanticEqualityResponse)
    (d : Diagnostic)
    (hprior : impls prior.typeName = some hp) (hprop : impls proposed.typeName = some hq)
    (hd : d ∈ (hq proposed prior).2) (hsev : d.severity = Severity.Error) :
    d ∈ (ValueSemanticEqualityBool impls ⟨path, some prior, some proposed⟩ resp).1.Diagnostics ∧
    d.severity = Severity.Error ∧
    (ValueSemanticEqualityBool impls ⟨path, some prior, some proposed⟩ resp).1.NewValue
      = (if (hq proposed prior).1 = true then some prior else resp.NewValue) := by
  rw [run_both impls path prior proposed hp hq resp hprior hprop]
  exact ⟨List.mem_append_right _ hd, hsev, rfl⟩

/-- C2 as amended, at a concrete input. -/
theorem error_diagnostic_kept_boolean_still_decides_witness :
    errorDiag ∈ (ValueSemanticEqualityBool exampleImpls ⟨[], some errFalse, some errTrue⟩
        ⟨some errTrue, []⟩).1.Diagnostics ∧
    (ValueSemanticEqualityBool exampleImpls ⟨[], some errFalse, some errTrue⟩
        ⟨some errTrue, []⟩).1.NewValue = some errFalse :=
  ⟨(error_diagnostic_kept_boolean_still_decides exampleImpls [] errFalse errTrue hookTrueError
      hookTrueError ⟨some errTrue, []⟩ errorDiag rfl rfl (List.mem_singleton.mpr rfl) rfl).1,
   (error_diagnostic_kept_boolean_still_decides exampleImpls [] errFalse errTrue hookTrueError
      hookTrueError ⟨some errTrue, []⟩ errorDiag rfl rfl (List.mem_singleton.mpr rfl) rfl).2.2⟩

/-- C2 fails as stated: both values implement the hook, the hook returns `true` together
with an Error diagnostic, the response starts at the proposed value, and the new value is
replaced by the prior value, which differs from the proposed one. -/
theorem error_does_not_force_proposed_counterexample :
    exampleImpls errFalse.typeName = some hookTrueError ∧
    exampleImpls errTrue.typeName = some hookTrueError ∧
    hookTrueError errTrue errFalse = (true, [errorDiag]) ∧
    errorDiag.severity = Severity.Error ∧
    (ValueSemanticEqualityBool exampleImpls ⟨[], some errFalse, some errTrue⟩
        ⟨some errTrue, []⟩).1 = ⟨some errFalse, [errorDiag]⟩ ∧
    errFalse ≠ errTrue := by
  refine ⟨rfl, rfl, rfl, rfl, rfl, by decide⟩

/-- C3: when neither value's type implements the hook and the response starts at the
proposed value, the call sends nothing out and adds no diagnostic, and the merged value has
the prior value's raw representation exactly when the prior and proposed raw values are
equal. -/
theorem scalar_fallback_raw_equality (impls : Impls) (path : List String)
    (prior proposed : Value) (diags : Diagnostics)
    (hprior : impls prior.typeName = none) (hprop : impls proposed.typeName = none) :
    (ValueSemanticEqualityBool impls ⟨path, some prior, some proposed⟩
        ⟨some proposed, diags⟩).2 = [] ∧
    (ValueSemanticEqualityBool impls ⟨path, some prior, some proposed⟩
        ⟨some proposed, diags⟩).1.Diagnostics = diags ∧
    ∃ merged,
      (ValueSemanticEqualityBool impls ⟨path, some prior, some proposed⟩
        ⟨some proposed, diags⟩).1.NewValue = some merged ∧
      (merged.rawValue = prior.rawValue ↔ prior.rawValue = proposed.rawValue) := by
  have hq := assert_none impls proposed hprop
  rw [run_not_both impls ⟨path, some prior, some proposed⟩ ⟨some proposed, diags⟩
    (Or.inl (by simp [assert_none impls prior hprior]))]
  exact ⟨rfl, rfl, proposed, rfl, eq_comm⟩

/-- C3 at the basic case: Bool `true` against Bool `true` without a custom rule gives the
merged value `true` and no diagnostics. -/
theorem scalar_fallback_raw_equality_witness :
    exampleImpls plainTrue.typeName = none ∧
    ((ValueSemanticEqualityBool exampleImpls ⟨[], some plainTrue, some plainTrue⟩
        ⟨some plainTrue, []⟩).2 = [] ∧
     (ValueSemanticEqualityBool exampleImpls ⟨[], some plainTrue, some plainTrue⟩
        ⟨some plainTrue, []⟩).1.Diagnostics = [] ∧
     ∃ merged,
      (ValueSemanticEqualityBool exampleImpls ⟨[], some plainTrue, some plainTrue⟩
        ⟨some plainTrue, []⟩).1.NewValue = some merged ∧
      (merged.rawValue = plainTrue.rawValue ↔ plainTrue.rawValue = plainTrue.rawValue)) ∧
    (ValueSemanticEqualityBool exampleImpls ⟨[], some plainTrue, some plainTrue⟩
        ⟨some plainTrue, []⟩).1.NewValue = some plainTrue ∧
    plainTrue.rawValue = Raw.bool true :=
  ⟨rfl, scalar_fallback_raw_equality exampleImpls [] plainTrue plainTrue [] rfl rfl, rfl, rfl⟩

/-- C4: when the prior value or the proposed value fails the type assertion (its type has
no hook, or it is the nil interface), nothing is invoked and the response comes back as
it went in, new value and diagnostics alike. -/
theorem no_hook_no_change (impls : Impls) (req : ValueSemanticEqualityRequest)
    (resp : ValueSemanticEqualityResponse)
    (h : (assertBoolValuableWithSemanticEquals impls req.PriorValue).isNone = true ∨
      (assertBoolValuableWithSemanticEquals impls req.ProposedNewValue).isNone = true) :
    (ValueSemanticEqualityBool impls req resp).2 = [] ∧
    (ValueSemanticEqualityBool impls req resp).1 = resp ∧
    (ValueSemanticEqualityBool impls req resp).1.NewValue = resp.NewValue ∧
    (ValueSemanticEqualityBool impls req resp).1.Diagnostics = resp.Diagnostics := by
  rw [run_not_both impls req resp h]
  exact ⟨rfl, rfl, rfl, rfl⟩

/-- C4 at a concrete input: the prior value has a hook, the proposed value has none. -/
theorem no_hook_no_change_witness :
    (assertBoolValuableWithSemanticEquals exampleImpls (some plainTrue)).isNone = true ∧
    (ValueSemanticEqualityBool exampleImpls ⟨[], some traceFalse, some plainTrue⟩
        ⟨some plainTrue, [warningDiag]⟩).2 = [] ∧
    (ValueSemanticEqualityBool exampleImpls ⟨[], some traceFalse, some plainTrue⟩
        ⟨some plainTrue, [warningDiag]⟩).1 = ⟨some plainTrue, [warningDiag]⟩ :=
  ⟨rfl,
   (no_hook_no_change exampleImpls ⟨[], some traceFalse, some plainTrue⟩
      ⟨some plainTrue, [warningDiag]⟩ (Or.inr rfl)).1,
   (no_hook_no_change exampleImpls ⟨[], some traceFalse, some plainTrue⟩
      ⟨some plainTrue, [warningDiag]⟩ (Or.inr rfl)).2.1⟩

/-- The outcome of the call, by the method sets of the two dynamic types. -/
theorem run_cases (impls : Impls) (path : List String) (prior proposed : Value)
    (resp : ValueSemanticEqualityResponse) :
    (∃ hp hq, impls prior.typeName = some hp ∧ impls proposed.typeName = some hq ∧
      ValueSemanticEqualityBool impls ⟨path, some prior, some proposed⟩ resp =
        (⟨if (hq proposed prior).1 = true then some prior else resp.NewValue,
          resp.Diagnostics ++ (hq proposed prior).2⟩,
         [ Effect.FrameworkTrace "Calling provider defined type-based SemanticEquals" proposed,
           Effect.BoolSemanticEquals proposed prior (hq proposed prior),
           Effect.FrameworkTrace "Called provider defined type-based SemanticEquals"
             proposed ])) ∨
    ((impls prior.typeName = none ∨ impls proposed.typeName = none) ∧
      ValueSemanticEqualityBool impls ⟨path, some prior, some proposed⟩ resp = (resp, [])) := by
  cases hp : impls prior.typeName with
  | none =>
    exact Or.inr ⟨Or.inl rfl, run_not_both impls _ resp
      (Or.inl (by simp [assert_none impls prior hp]))⟩
  | some f =>
    cases hq : impls proposed.typeName with
    | none =>
      exact Or.inr ⟨Or.inr rfl, run_not_both impls _ resp
        (Or.inr (by simp [assert_none impls proposed hq]))⟩
    | some g => exact Or.inl ⟨f, g, rfl, rfl, run_both impls path prior proposed f g resp hp hq⟩

/-- C5: for every request and every initial response, the diagnostics the response held on
entry are the front part of its diagnostics after the call, in their order, and every
diagnostic returned by a hook that was invoked is in the response, whatever boolean the
hook returned. -/
theorem diagnostics_never_discarded (impls : Impls) (req : ValueSemanticEqualityRequest)
    (resp : ValueSemanticEqualityResponse) :
    resp.Diagnostics <+: (ValueSemanticEqualityBool impls req resp).1.Diagnostics ∧
    List.Sublist resp.Diagnostics (ValueSemanticEqualityBool impls req resp).1.Diagnostics ∧
    ∀ receiver arg ret,
      Effect.BoolSemanticEquals receiver arg ret ∈ (ValueSemanticEqualityBool impls req resp).2 →
      ∀ d ∈ ret.2, d ∈ (ValueSemanticEqualityBool impls req resp).1.Diagnostics := by
  have key : resp.Diagnostics <+: (ValueSemanticEqualityBool impls req resp).1.Diagnostics ∧
      ∀ receiver arg ret,
        Effect.BoolSemanticEquals receiver arg ret ∈
          (ValueSemanticEqualityBool impls req resp).2 →
        ∀ d ∈ ret.2, d ∈ (ValueSemanticEqualityBool impls req resp).1.Diagnostics := by
    obtain ⟨path, pv, qv⟩ := req
    cases pv with
    | none =>
      rw [run_not_both impls ⟨path, none, qv⟩ resp (Or.inl rfl)]
      exact ⟨List.prefix_refl _, fun _ _ _ h => absurd h (List.not_mem_nil _)⟩
    | some prior =>
      cases qv with
      | none =>
        rw [run_not_both impls ⟨path, some prior, none⟩ resp (Or.inr rfl)]
        exact ⟨List.prefix_refl _, fun _ _ _ h => absurd h (List.not_mem_nil _)⟩
      | some proposed =>
        rcases run_cases impls path prior proposed resp with ⟨hp, hq, _, _, hrun⟩ | ⟨_, hrun⟩
        · rw [hrun]
          refine ⟨List.prefix_append _ _, ?_⟩
          intro receiver arg ret hmem d hd
          simp only [List.mem_cons, List.mem_singleton, Effect.BoolSemanticEquals.injEq,
            reduceCtorEq, false_or, or_false, List.not_mem_nil] at hmem
          obtain ⟨_, _, rfl⟩ := hmem
          exact List.mem_append_right _ hd
        · rw [hrun]
          exact ⟨List.prefix_refl _, fun _ _ _ h => absurd h (List.not_mem_nil _)⟩
  exact ⟨key.1, key.1.sublist, key.2⟩

/-- C5 at a concrete input: a Warning already in the response stays in front and the
Error the hook returned next to `true` is in the response. -/
theorem diagnostics_never_discarded_witness :
    [warningDiag] <+: (ValueSemanticEqualityBool exampleImpls
        ⟨[], some errFalse, some errTrue⟩ ⟨some errTrue, [warningDiag]⟩).1.Diagnostics ∧
    errorDiag ∈ (ValueSemanticEqualityBool exampleImpls
        ⟨[], some errFalse, some errTrue⟩ ⟨some errTrue, [warningDiag]⟩).1.Diagnostics :=
  ⟨(diagnostics_never_discarded exampleImpls ⟨[], some errFalse, some errTrue⟩
      ⟨some errTrue, [warningDiag]⟩).1,
   (diagnostics_never_discarded exampleImpls ⟨[], some errFalse, some errTrue⟩
      ⟨some errTrue, [warningDiag]⟩).2.2 errTrue errFalse (true, [errorDiag])
      (by decide) errorDiag (List.mem_singleton.mpr rfl)⟩

/-- C6 as amended: the call does not compare the declared types. For a prior and a
proposed value of different types: if one of the two types has no hook, nothing is invoked
and the response comes back unchanged; if both have one, the proposed value's hook is
invoked with the prior value, its diagnostics are in the response, and the new value is the
prior value when the hook returns `true` and the value held on entry when it returns
`false`. -/
theorem differing_types_follow_hook (impls : Impls) (path : List String)
    (prior proposed : Value) (resp : ValueSemanticEqualityResponse)
    (hne : prior.typeName ≠ proposed.typeName) :
    prior.typeName ≠ proposed.typeName ∧
    ((impls prior.typeName = none ∨ impls proposed.typeName = none) →
      ValueSemanticEqualityBool impls ⟨path, some prior, some proposed⟩ resp = (resp, [])) ∧
    (∀ hp hq, impls prior.typeName = some hp → impls proposed.typeName = some hq →
      (ValueSemanticEqualityBool impls ⟨path, some prior, some proposed⟩ resp).2.filter
          Effect.isHookCall
        = [Effect.BoolSemanticEquals proposed prior (hq proposed prior)] ∧
      (∀ d ∈ (hq proposed prior).2,
        d ∈ (ValueSemanticEqualityBool impls ⟨path, some prior, some proposed⟩
          resp).1.Diagnostics) ∧
      (ValueSemanticEqualityBool impls ⟨path, some prior, some proposed⟩ resp).1.NewValue
        = (if (hq proposed prior).1 = true then some prior else resp.NewValue)) := by
  refine ⟨hne, ?_, ?_⟩
  · intro h
    apply run_not_both
    rcases h with h | h
    · exact Or.inl (by simp [assert_none impls prior h])
    · exact Or.inr (by simp [assert_none impls proposed h])
  · intro hp hq hprior hprop
    rw [run_both impls path prior proposed hp hq resp hprior hprop]
    exact ⟨by simp [Effect.isHookCall], fun d hd => List.mem_append_right _ hd, rfl⟩

/-- C6 as amended, at a concrete input: prior of type `ErrBool`, proposed of type
`TraceBool`; the hook of `TraceBool` runs and the prior value is taken. -/
theorem differing_types_follow_hook_witness :
    errFalse.typeName ≠ traceTrue.typeName ∧
    (ValueSemanticEqualityBool exampleImpls ⟨[], some errFalse, some traceTrue⟩
        ⟨some traceTrue, []⟩).2.filter Effect.isHookCall
      = [Effect.BoolSemanticEquals traceTrue errFalse (hookTrueTrace traceTrue errFalse)] ∧
    (ValueSemanticEqualityBool exampleImpls ⟨[], some errFalse, some traceTrue⟩
        ⟨some traceTrue, []⟩).1.NewValue
      = (if (hookTrueTrace traceTrue errFalse).1 = true then some errFalse
          else some traceTrue) :=
  ⟨by decide,
   ((differing_types_follow_hook exampleImpls [] errFalse traceTrue ⟨some traceTrue, []⟩
      (by decide)).2.2 hookTrueError hookTrueTrace rfl rfl).1,
   ((differing_types_follow_hook exampleImpls [] errFalse traceTrue ⟨some traceTrue, []⟩
      (by decide)).2.2 hookTrueError hookTrueTrace rfl rfl).2.2⟩

/-- C6 fails as stated: the prior value has type `ErrBool`, the proposed value type
`TraceBool`, both types implement the hook; the hook is invoked all the same, the new value
becomes the prior value instead of staying the proposed one, and a diagnostic is emitted. -/
theorem differing_types_hook_invoked_counterexample :
    errFalse.typeName ≠ traceTrue.typeName ∧
    (exampleImpls errFalse.typeName).isSome = true ∧
    (exampleImpls traceTrue.typeName).isSome = true ∧
    ValueSemanticEqualityBool exampleImpls ⟨[], some errFalse, some traceTrue⟩
        ⟨some traceTrue, []⟩ =
      (⟨some errFalse, [traceDiag]⟩,
       [ Effect.FrameworkTrace "Calling provider defined type-based SemanticEquals" traceTrue,
         Effect.BoolSemanticEquals traceTrue errFalse (true, [traceDiag]),
         Effect.FrameworkTrace "Called provider defined type-based SemanticEquals"
           traceTrue ]) ∧
    some errFalse ≠ some traceTrue := by
  refine ⟨by decide, rfl, rfl, rfl, by decide⟩

/-- C7 as amended: the call does not look at whether a value is Unknown. When exactly one
of the prior and proposed values is Unknown, the new value becomes the prior value exactly
when both types implement the hook and the hook returns `true`; in every other case it is
left as it was on entry. -/
theorem unknown_not_inspected (impls : Impls) (path : List String)
    (prior proposed : Value) (resp : ValueSemanticEqualityResponse)
    (hunk : (prior.state = ValueState.Unknown ∧ proposed.state ≠ ValueState.Unknown) ∨
      (prior.state ≠ ValueState.Unknown ∧ proposed.state = ValueState.Unknown)) :
    ((prior.state = ValueState.Unknown ∧ proposed.state ≠ ValueState.Unknown) ∨
      (prior.state ≠ ValueState.Unknown ∧ proposed.state = ValueState.Unknown)) ∧
    (ValueSemanticEqualityBool impls ⟨path, some prior, some proposed⟩ resp).1.NewValue =
      (match impls prior.typeName, impls proposed.typeName with
        | some _, some hq => if (hq proposed prior).1 = true then some prior else resp.NewValue
        | _, _ => resp.NewValue) := by
  refine ⟨hunk, ?_⟩
  rcases run_cases impls path prior proposed resp with ⟨hp, hq, h1, h2, hrun⟩ | ⟨h, hrun⟩
  · rw [hrun, h1, h2]
  · rw [hrun]
    rcases h with h | h
    · rw [h]
    · rw [h]
      cases impls prior.typeName <;> rfl

/-- C7 as amended, at a concrete input: an Unknown prior value against a known proposed
value, both of a type whose hook answers `true`. -/
theorem unknown_not_inspected_witness :
    ((traceUnknown.state = ValueState.Unknown ∧ traceTrue.state ≠ ValueState.Unknown) ∨
      (traceUnknown.state ≠ ValueState.Unknown ∧ traceTrue.state = ValueState.Unknown)) ∧
    (ValueSemanticEqualityBool exampleImpls ⟨[], some traceUnknown, some traceTrue⟩
        ⟨some traceTrue, []⟩).1.NewValue =
      (match exampleImpls traceUnknown.typeName, exampleImpls traceTrue.typeName with
        | some _, some hq =>
          if (hq traceTrue traceUnknown).1 = true then some traceUnknown else some traceTrue
        | _, _ => some traceTrue) :=
  unknown_not_inspected exampleImpls [] traceUnknown traceTrue ⟨some traceTrue, []⟩
    (Or.inl ⟨rfl, by decide⟩)

/-- C7 fails as stated: the prior value is Unknown, the proposed value is known, the hook
returns `true`, and the new value is set to the Unknown prior value. -/
theorem unknown_prior_taken_counterexample :
    traceUnknown.state = ValueState.Unknown ∧
    traceTrue.state ≠ ValueState.Unknown ∧
    (ValueSemanticEqualityBool exampleImpls ⟨[], some traceUnknown, some traceTrue⟩
        ⟨some traceTrue, []⟩).1.NewValue = some traceUnknown ∧
    some traceUnknown ≠ some traceTrue := by
  refine ⟨rfl, by decide, rfl, by decide⟩

/-- C8 as amended: for every Bool value `v`, with or without a custom hook, the call with
prior = proposed = `v` and a response that starts at `v` with no diagnostics gives the
merged value `v`, and every diagnostic in the response is one that the hook of `v`
returned for `v` against itself; so there is none when `v` has no hook, and no Warning or
Error when the hook returns none. -/
theorem idempotence_bool (impls : Impls) (path : List String) (v : Value) :
    (ValueSemanticEqualityBool impls ⟨path, some v, some v⟩ ⟨some v, []⟩).1.NewValue
      = some v ∧
    (∀ d ∈ (ValueSemanticEqualityBool impls ⟨path, some v, some v⟩ ⟨some v, []⟩).1.Diagnostics,
      ∃ hq, impls v.typeName = some hq ∧ d ∈ (hq v v).2) ∧
    (impls v.typeName = none →
      (ValueSemanticEqualityBool impls ⟨path, some v, some v⟩ ⟨some v, []⟩).1.Diagnostics
        = []) ∧
    (∀ hq, impls v.typeName = some hq →
      (∀ d ∈ (hq v v).2, d.severity = Severity.Trace) →
      ∀ d ∈ (ValueSemanticEqualityBool impls ⟨path, some v, some v⟩
          ⟨some v, []⟩).1.Diagnostics,
        d.severity ≠ Severity.Warning ∧ d.severity ≠ Severity.Error) := by
  rcases run_cases impls path v v ⟨some v, []⟩ with ⟨hp, hq, h1, h2, hrun⟩ | ⟨h, hrun⟩
  · rw [hrun]
    refine ⟨by simp, ?_, ?_, ?_⟩
    · intro d hd
      exact ⟨hq, h2, by simpa using hd⟩
    · intro hnone
      rw [hnone] at h1
      cases h1
    · intro hq2 hsome htrace d hd
      rw [h2] at hsome
      cases hsome
      have hs := htrace d (by simpa using hd)
      rw [hs]
      exact ⟨by decide, by decide⟩
  · rw [hrun]
    refine ⟨rfl, ?_, fun _ => rfl, ?_⟩
    · intro d hd
      exact absurd hd (List.not_mem_nil _)
    · intro _ _ _ d hd
      exact absurd hd (List.not_mem_nil _)

/-- C8 as amended, at a concrete input: a value whose hook reports only a Trace entry. -/
theorem idempotence_bool_witness :
    exampleImpls rawTrue.typeName = some hookRawTrace ∧
    (∀ d ∈ (hookRawTrace rawTrue rawTrue).2, d.severity = Severity.Trace) ∧
    (ValueSemanticEqualityBool exampleImpls ⟨[], some rawTrue, some rawTrue⟩
        ⟨some rawTrue, []⟩).1.NewValue = some rawTrue ∧
    ∀ d ∈ (ValueSemanticEqualityBool exampleImpls ⟨[], some rawTrue, some rawTrue⟩
        ⟨some rawTrue, []⟩).1.Diagnostics,
      d.severity ≠ Severity.Warning ∧ d.severity ≠ Severity.Error :=
  ⟨rfl, by decide,
   (idempotence_bool exampleImpls [] rawTrue).1,
   (idempotence_bool exampleImpls [] rawTrue).2.2.2 hookRawTrace rfl (by decide)⟩

/-- C8 fails as stated: a value whose hook reports a Warning, compared against itself from
a response with no diagnostics, leaves a Warning in the response. -/
theorem idempotence_warning_counterexample :
    (ValueSemanticEqualityBool exampleImpls ⟨[], some warnTrue, some warnTrue⟩
        ⟨some warnTrue, []⟩).1 = ⟨some warnTrue, [warningDiag]⟩ ∧
    warningDiag.severity = Severity.Warning ∧
    ¬ (∀ d ∈ (ValueSemanticEqualityBool exampleImpls ⟨[], some warnTrue, some warnTrue⟩
        ⟨some warnTrue, []⟩).1.Diagnostics,
      d.severity ≠ Severity.Warning ∧ d.severity ≠ Severity.Error) := by
  refine ⟨rfl, rfl, ?_⟩
  intro h
  exact (h warningDiag (List.mem_singleton.mpr rfl)).1 rfl

end Fwschemadata

/-! ## Theorems on `testSweepCloudNetworkPrivate` -/

namespace Ovh

theorem next_network (api : Api) : api.next.2.network = api.network := by
  unfold Api.next
  cases api.faults <;> rfl

theorem getNetworkIds_network (api : Api) :
    (getNetworkIds api).2.network = api.network := by
  unfold getNetworkIds
  simp only []
  split <;> exact next_network api

theorem getNetwork_network (n : String) (api : Api) :
    (getNetwork n api).2.network = api.network := by
  unfold getNetwork
  simp only []
  split
  · exact next_network api
  · split <;> exact next_network api

/-- A fetched network is the record the service holds under that id. -/
theorem getNetwork_ok (n : String) (api api1 : Api) (r : PublicCloudPrivateNetworkResponse)
    (h : getNetwork n api = (Except.ok r, api1)) :
    ∃ net, api.network n = some net ∧ net.name = r.Name := by
  unfold getNetwork at h
  simp only [] at h
  split at h
  · cases h
  · rw [next_network] at h
    split at h
    · cases h
    · rename_i net hnet
      simp only [Prod.mk.injEq, Except.ok.injEq] at h
      exact ⟨net, hnet, by rw [← h.1]⟩

theorem getSubnetIds_network (n : String) (api : Api) :
    (getSubnetIds n api).2.network = api.network := by
  unfold getSubnetIds
  simp only []
  split
  · exact next_network api
  · split <;> exact next_network api

theorem deleteSubnet_frame (n s : String) (api : Api) (m : String) (hm : m ≠ n) :
    (deleteSubnet n s api).2.network m = api.network m := by
  unfold deleteSubnet
  simp only []
  split
  · rw [next_network]
  · split
    · rw [next_network]
    · split
      · simp only [if_neg hm]
        rw [next_network]
      · rw [next_network]

theorem deleteNetwork_frame (n : String) (api : Api) (m : String) (hm : m ≠ n) :
    (deleteNetwork n api).2.network m = api.network m := by
  unfold deleteNetwork
  simp only []
  split
  · rw [next_network]
  · split
    · rw [next_network]
    · simp only [if_neg hm]
      rw [next_network]

/-- The subnet loop touches the record of network `n` only, and all its requests are
Deletes of subnets of `n`. -/
theorem deleteSubnets_frame (n : String) :
    ∀ (subs : List String) (api : Api),
      (∀ m, m ≠ n → (deleteSubnets n subs api).2.1.network m = api.network m) ∧
      (∀ e ∈ (deleteSubnets n subs api).2.2, ∀ m, e.deleteTarget = some m → m = n) := by
  intro subs
  induction subs with
  | nil =>
    intro api
    exact ⟨fun _ _ => rfl, fun e he => absurd he (List.not_mem_nil _)⟩
  | cons s rest ih =>
    intro api
    have hfr := deleteSubnet_frame n s api
    unfold deleteSubnets
    cases hd : deleteSubnet n s api with
    | mk r api1 =>
      rw [hd] at hfr
      cases r with
      | some err =>
        refine ⟨fun m hm => hfr m hm, ?_⟩
        intro e he m hem
        simp only [List.mem_singleton] at he
        subst he
        simpa [Event.deleteTarget] using hem.symm
      | none =>
        obtain ⟨ih1, ih2⟩ := ih api1
        refine ⟨fun m hm => (ih1 m hm).trans (hfr m hm), ?_⟩
        intro e he m hem
        simp only [List.mem_cons] at he
        rcases he with he | he
        · subst he
          simpa [Event.deleteTarget] using hem.symm
        · exact ih2 e he m hem

theorem cascadeDelete_listFail (projectId n : String) (api api1 : Api) (err : ApiError)
    (hg : getSubnetIds n api = (Except.error err, api1)) :
    cascadeDelete projectId n api =
      (some (RetryableError (SweepError.listingSubnets projectId err)), api1,
        [Event.listSubnets n none]) := by
  simp only [cascadeDelete, hg]

theorem cascadeDelete_subnetFail (projectId n : String) (api api1 api2 : Api)
    (subnetIds : List String) (rerr : RetryError) (evs : List Event)
    (hg : getSubnetIds n api = (Except.ok subnetIds, api1))
    (hds : deleteSubnets n subnetIds api1 = (some rerr, api2, evs)) :
    cascadeDelete projectId n api =
      (some rerr, api2, Event.listSubnets n (some subnetIds) :: evs) := by
  simp only [cascadeDelete, hg, hds]

theorem cascadeDelete_networkFail (projectId n : String) (api api1 api2 api3 : Api)
    (subnetIds : List String) (err : ApiError) (evs : List Event)
    (hg : getSubnetIds n api = (Except.ok subnetIds, api1))
    (hds : deleteSubnets n subnetIds api1 = (none, api2, evs))
    (hdel : deleteNetwork n api2 = (some err, api3)) :
    cascadeDelete projectId n api =
      (some (RetryableError (SweepError.client err)), api3,
        Event.listSubnets n (some subnetIds) :: (evs ++ [Event.deleteNetwork n false])) := by
  simp only [cascadeDelete, hg, hds, hdel]

theorem cascadeDelete_done (projectId n : String) (api api1 api2 api3 : Api)
    (subnetIds : List String) (evs : List Event)
    (hg : getSubnetIds n api = (Except.ok subnetIds, api1))
    (hds : deleteSubnets n subnetIds api1 = (none, api2, evs))
    (hdel : deleteNetwork n api2 = (none, api3)) :
    cascadeDelete projectId n api =
      (none, api3,
        Event.listSubnets n (some subnetIds) :: (evs ++ [Event.deleteNetwork n true])) := by
  simp only [cascadeDelete, hg, hds, hdel]

/-- One attempt touches the record of network `n` only, and all its Deletes aim at `n`. -/
theorem cascadeDelete_frame (projectId n : String) (api : Api) :
    (∀ m, m ≠ n → (cascadeDelete projectId n api).2.1.network m = api.network m) ∧
    (∀ e ∈ (cascadeDelete projectId n api).2.2, ∀ m, e.deleteTarget = some m → m = n) := by
  have hget := getSubnetIds_network n api
  cases hg : getSubnetIds n api with
  | mk r api1 =>
    rw [hg] at hget
    simp only [] at hget
    cases r with
    | error err =>
      rw [cascadeDelete_listFail projectId n api api1 err hg]
      refine ⟨fun m _ => by simp only [hget], ?_⟩
      intro e he m hem
      simp only [List.mem_singleton] at he
      subst he
      simp [Event.deleteTarget] at hem
    | ok subnetIds =>
      obtain ⟨hs1, hs2⟩ := deleteSubnets_frame n subnetIds api1
      cases hds : deleteSubnets n subnetIds api1 with
      | mk r2 rest2 =>
        obtain ⟨api2, evs⟩ := rest2
        rw [hds] at hs1 hs2
        simp only [] at hs1 hs2
        cases r2 with
        | some rerr =>
          rw [cascadeDelete_subnetFail projectId n api api1 api2 subnetIds rerr evs hg hds]
          refine ⟨fun m hm => by simp only [hs1 m hm, hget], ?_⟩
          intro e he m hem
          simp only [List.mem_cons] at he
          rcases he with he | he
          · subst he
            simp [Event.deleteTarget] at hem
          · exact hs2 e he m hem
        | none =>
          have hdn := deleteNetwork_frame n api2
          cases hdel : deleteNetwork n api2 with
          | mk r3 api3 =>
            rw [hdel] at hdn
            simp only [] at hdn
            have hev : ∀ ok, ∀ e ∈ Event.listSubnets n (some subnetIds) ::
                (evs ++ [Event.deleteNetwork n ok]), ∀ m, e.deleteTarget = some m → m = n := by
              intro ok e he m hem
              simp only [List.mem_cons, List.mem_append, List.mem_singleton,
                List.not_mem_nil, or_false] at he
              rcases he with he | he | he
              · subst he
                simp [Event.deleteTarget] at hem
              · exact hs2 e he m hem
              · subst he
                simpa [Event.deleteTarget] using hem.symm
            cases r3 with
            | some err =>
              rw [cascadeDelete_networkFail projectId n api api1 api2 api3 subnetIds err evs
                hg hds hdel]
              exact ⟨fun m hm => by simp only [hdn m hm, hs1 m hm, hget], hev false⟩
            | none =>
              rw [cascadeDelete_done projectId n api api1 api2 api3 subnetIds evs hg hds hdel]
              exact ⟨fun m hm => by simp only [hdn m hm, hs1 m hm, hget], hev true⟩

/-- Retrying a function that stays within network `n` stays within network `n`. -/
theorem Retry_frame (n : String) (f : Api → Step (Option RetryError))
    (hf : ∀ api, (∀ m, m ≠ n → (f api).2.1.network m = api.network m) ∧
      (∀ e ∈ (f api).2.2, ∀ m, e.deleteTarget = some m → m = n)) :
    ∀ (k : Nat) (api : Api),
      (∀ m, m ≠ n → (Retry k f api).2.1.network m = api.network m) ∧
      (∀ e ∈ (Retry k f api).2.2, ∀ m, e.deleteTarget = some m → m = n) := by
  intro k
  induction k with
  | zero =>
    intro api
    obtain ⟨h1, h2⟩ := hf api
    unfold Retry
    cases hfa : f api with
    | mk r rest =>
      obtain ⟨api1, evs⟩ := rest
      rw [hfa] at h1 h2
      cases r <;> exact ⟨h1, h2⟩
  | succ k ih =>
    intro api
    obtain ⟨h1, h2⟩ := hf api
    unfold Retry
    cases hfa : f api with
    | mk r rest =>
      obtain ⟨api1, evs⟩ := rest
      rw [hfa] at h1 h2
      simp only [] at h1 h2
      cases r with
      | none => exact ⟨h1, h2⟩
      | some rerr =>
        simp only []
        split
        · obtain ⟨i1, i2⟩ := ih api1
          refine ⟨fun m hm => (i1 m hm).trans (h1 m hm), ?_⟩
          intro e he m hem
          simp only [List.mem_append] at he
          rcases he with he | he
          · exact h2 e he m hem
          · exact i2 e he m hem
        · exact ⟨h1, h2⟩

theorem deletesGuarded_nil ( test_prefix : String) : DeletesGuarded test_prefix [] := by
  intro before e after n h
  cases before <;> cases h

theorem deletesGuarded_append ( test_prefix : String) (l₁ l₂ : List Event)
    (h₁ : DeletesGuarded test_prefix l₁) (h₂ : DeletesGuarded test_prefix l₂) :
    DeletesGuarded test_prefix (l₁ ++ l₂) := by
  intro before e after n h ht
  rcases List.append_eq_append_iff.mp h with ⟨a, ha, hb⟩ | ⟨c, hc, hd⟩
  · obtain ⟨name, hmem, hpre⟩ := h₂ a e after n hb ht
    exact ⟨name, by rw [ha]; exact List.mem_append_right _ hmem, hpre⟩
  · cases c with
    | nil =>
      simp only [List.nil_append] at hd
      obtain ⟨name, hmem, _⟩ := h₂ [] e after n hd.symm ht
      exact absurd hmem (List.not_mem_nil _)
    | cons x c =>
      simp only [List.cons_append, List.cons.injEq] at hd
      obtain ⟨hx, _⟩ := hd
      subst hx
      exact h₁ before e c n hc ht

theorem deletesGuarded_cons ( test_prefix : String) (x : Event) (l : List Event)
    (hx : x.deleteTarget = none) (h : DeletesGuarded test_prefix l) :
    DeletesGuarded test_prefix (x :: l) := by
  intro before e after n heq ht
  cases before with
  | nil =>
    simp only [List.nil_append, List.cons.injEq] at heq
    rw [← heq.1, hx] at ht
    cases ht
  | cons y before =>
    simp only [List.cons_append, List.cons.injEq] at heq
    obtain ⟨name, hmem, hpre⟩ := h before e after n heq.2 ht
    exact ⟨name, List.mem_cons_of_mem _ hmem, hpre⟩

/-- A log that opens with the fetch of a test network and then only deletes within that
network is guarded. -/
theorem deletesGuarded_fetch ( test_prefix : String) (n name : String) (evs : List Event)
    (hpre : HasPrefix name test_prefix = true)
    (hev : ∀ e ∈ evs, ∀ m, e.deleteTarget = some m → m = n) :
    DeletesGuarded test_prefix (Event.getNetwork n (some name) :: evs) := by
  intro before e after m heq ht
  cases before with
  | nil =>
    simp only [List.nil_append, List.cons.injEq] at heq
    rw [← heq.1] at ht
    simp [Event.deleteTarget] at ht
  | cons y before =>
    simp only [List.cons_append, List.cons.injEq] at heq
    obtain ⟨hy, hrest⟩ := heq
    have hmem : e ∈ evs := by rw [hrest]; simp
    have hmn := hev e hmem m ht
    subst hmn
    exact ⟨name, by rw [← hy]; exact List.mem_cons_self _ _, hpre⟩

/-- The network loop: every Delete is guarded by an earlier fetch of a test name, and the
records of networks without the test name are kept. -/
theorem sweepNetworks_safe ( test_prefix : String) (budget : Nat) (projectId : String) :
    ∀ (ids : List String) (api : Api),
      DeletesGuarded test_prefix (sweepNetworks test_prefix budget projectId ids api).2.2 ∧
      (∀ m net, api.network m = some net → HasPrefix net.name test_prefix = false →
        (sweepNetworks test_prefix budget projectId ids api).2.1.network m = some net) := by
  intro ids
  induction ids with
  | nil =>
    intro api
    exact ⟨deletesGuarded_nil test_prefix, fun m net h _ => h⟩
  | cons n rest ih =>
    intro api
    have hnet := getNetwork_network n api
    cases hg : getNetwork n api with
    | mk r api1 =>
      rw [hg] at hnet
      simp only [] at hnet
      cases r with
      | error err =>
        simp only [sweepNetworks, hg]
        refine ⟨deletesGuarded_cons test_prefix _ _ rfl (deletesGuarded_nil test_prefix), ?_⟩
        intro m net h _
        rw [hnet]; exact h
      | ok r =>
        obtain ⟨rec, hrec, hname⟩ := getNetwork_ok n api api1 r hg
        cases hpre : HasPrefix r.Name test_prefix with
        | false =>
          obtain ⟨ih1, ih2⟩ := ih api1
          simp only [sweepNetworks, hg, hpre, Bool.not_false, if_true]
          refine ⟨deletesGuarded_cons test_prefix _ _ rfl ih1, ?_⟩
          intro m net h hp
          exact ih2 m net (by rw [hnet]; exact h) hp
        | true =>
          obtain ⟨hr1, hr2⟩ := Retry_frame n (cascadeDelete projectId n)
            (cascadeDelete_frame projectId n) budget api1
          have keep : ∀ m net, api.network m = some net →
              HasPrefix net.name test_prefix = false →
              (Retry budget (cascadeDelete projectId n) api1).2.1.network m = some net := by
            intro m net h hp
            have hmn : m ≠ n := by
              intro hmn
              subst hmn
              rw [hrec] at h
              cases h
              rw [hname, hpre] at hp
              cases hp
            rw [hr1 m hmn, hnet]
            exact h
          cases hret : Retry budget (cascadeDelete projectId n) api1 with
          | mk res rest2 =>
            obtain ⟨api2, evs⟩ := rest2
            rw [hret] at hr2 keep
            simp only [] at hr2 keep
            have hfetch := deletesGuarded_fetch test_prefix n r.Name evs hpre hr2
            cases res with
            | some err =>
              simp only [sweepNetworks, hg, hpre, Bool.not_true, hret]
              exact ⟨hfetch, keep⟩
            | none =>
              obtain ⟨ih1, ih2⟩ := ih api2
              simp only [sweepNetworks, hg, hpre, Bool.not_true, hret]
              refine ⟨?_, fun m net h hp => ih2 m net (keep m net h hp) hp⟩
              have := deletesGuarded_append test_prefix _ _ hfetch ih1
              simpa using this

/-- The whole sweeper, in the same terms as the loop. -/
theorem testSweep_safe ( test_prefix : String) (budget : Nat) (env : Env) (api : Api) :
    DeletesGuarded test_prefix (testSweepCloudNetworkPrivate test_prefix budget env api).2.2 ∧
    (∀ m net, api.network m = some net → HasPrefix net.name test_prefix = false →
      (testSweepCloudNetworkPrivate test_prefix budget env api).2.1.network m = some net) := by
  unfold testSweepCloudNetworkPrivate
  cases env.clientErr with
  | some err => exact ⟨deletesGuarded_nil test_prefix, fun m net h _ => h⟩
  | none =>
    simp only []
    split
    · exact ⟨deletesGuarded_nil test_prefix, fun m net h _ => h⟩
    · split
      · exact ⟨deletesGuarded_nil test_prefix, fun m net h _ => h⟩
      · have hnet := getNetworkIds_network api
        cases hg : getNetworkIds api with
        | mk r api1 =>
          rw [hg] at hnet
          simp only [] at hnet
          cases r with
          | error err =>
            refine ⟨deletesGuarded_cons test_prefix _ _ rfl (deletesGuarded_nil test_prefix), ?_⟩
            intro m net h _
            simp only [hnet]; exact h
          | ok networkIds =>
            obtain ⟨h1, h2⟩ :=
              sweepNetworks_safe test_prefix budget env.OVH_PUBLIC_CLOUD networkIds api1
            refine ⟨deletesGuarded_cons test_prefix _ _ rfl h1, ?_⟩
            intro m net h hp
            exact h2 m net (by rw [hnet]; exact h) hp

/-- The subnet loop either deletes every listed subnet, in list order, or stops at the
first Delete that fails. -/
theorem deleteSubnets_shape (n : String) :
    ∀ (subs : List String) (api : Api),
      ((deleteSubnets n subs api).1 = none ∧
        (deleteSubnets n subs api).2.2 = subs.map (fun t => Event.deleteSubnet n t true)) ∨
      (∃ done s rest err, subs = done ++ s :: rest ∧
        (deleteSubnets n subs api).1 = some (RetryableError err) ∧
        (deleteSubnets n subs api).2.2 =
          done.map (fun t => Event.deleteSubnet n t true) ++ [Event.deleteSubnet n s false]) := by
  intro subs
  induction subs with
  | nil =>
    intro api
    exact Or.inl ⟨rfl, rfl⟩
  | cons s rest ih =>
    intro api
    cases hd : deleteSubnet n s api with
    | mk r api1 =>
      cases r with
      | some err =>
        refine Or.inr ⟨[], s, rest, SweepError.client err, rfl, ?_, ?_⟩
        · simp only [deleteSubnets, hd]
        · simp only [deleteSubnets, hd, List.map_nil, List.nil_append]
      | none =>
        rcases ih api1 with ⟨h1, h2⟩ | ⟨done, t, rest2, err, hsplit, h1, h2⟩
        · refine Or.inl ⟨?_, ?_⟩
          · simp only [deleteSubnets, hd, h1]
          · simp only [deleteSubnets, hd, h2, List.map_cons]
        · refine Or.inr ⟨s :: done, t, rest2, err, ?_, ?_, ?_⟩
          · rw [hsplit, List.cons_append]
          · simp only [deleteSubnets, hd, h1]
          · simp only [deleteSubnets, hd, h2, List.map_cons, List.cons_append]

/-- C9: every Delete the sweeper sends, for a network or for one of its subnets, comes
after a fetch of that network whose returned name starts with `test_prefix`; and every
network whose name does not start with `test_prefix` keeps its record, name and subnets,
whatever the listing returned, whichever requests fail and however often the cascade is
retried. -/
theorem sweeper_deletes_only_test_networks ( test_prefix : String) (budget : Nat) (env : Env)
    (api : Api) :
    (∀ before e after n,
      (testSweepCloudNetworkPrivate test_prefix budget env api).2.2 = before ++ e :: after →
      e.deleteTarget = some n →
      ∃ name, Event.getNetwork n (some name) ∈ before ∧ HasPrefix name test_prefix = true) ∧
    (∀ n net, api.network n = some net → HasPrefix net.name test_prefix = false →
      (testSweepCloudNetworkPrivate test_prefix budget env api).2.1.network n = some net) :=
  testSweep_safe test_prefix budget env api

/-- C9 at a concrete input: a test network with two subnets and a production network; the
first subnet Delete fails once and the cascade is retried. The Delete of the test network
follows its fetch, and the production network keeps its record. -/
theorem sweeper_deletes_only_test_networks_witness :
    (∃ name,
      Event.getNetwork "net-a" (some name) ∈
        [Event.listNetworks (some ["net-a", "net-b"]),
         Event.getNetwork "net-a" (some "terraform_testacc_private_net"),
         Event.listSubnets "net-a" (some ["s1", "s2"]),
         Event.deleteSubnet "net-a" "s1" false,
         Event.listSubnets "net-a" (some ["s1", "s2"]),
         Event.deleteSubnet "net-a" "s1" true,
         Event.deleteSubnet "net-a" "s2" true] ∧
      HasPrefix name "terraform_testacc" = true) ∧
    (testSweepCloudNetworkPrivate "terraform_testacc" 3 exampleEnv exampleApi).2.1.network
        "net-b" = some ⟨"production", ["s3"]⟩ :=
  ⟨(sweeper_deletes_only_test_networks "terraform_testacc" 3 exampleEnv exampleApi).1
      [Event.listNetworks (some ["net-a", "net-b"]),
       Event.getNetwork "net-a" (some "terraform_testacc_private_net"),
       Event.listSubnets "net-a" (some ["s1", "s2"]),
       Event.deleteSubnet "net-a" "s1" false,
       Event.listSubnets "net-a" (some ["s1", "s2"]),
       Event.deleteSubnet "net-a" "s1" true,
       Event.deleteSubnet "net-a" "s2" true]
      (Event.deleteNetwork "net-a" true)
      [Event.getNetwork "net-b" (some "production")]
      "net-a" rfl rfl,
   (sweeper_deletes_only_test_networks "terraform_testacc" 3 exampleEnv exampleApi).2
      "net-b" ⟨"production", ["s3"]⟩ rfl rfl⟩

/-- C10: one attempt of the cascade delete runs in one of three ways. Either the subnet
listing fails, and the attempt ends with a retryable error after that single request. Or
the listing succeeds, the subnets before some listed subnet are deleted with success in
list order, the Delete of that subnet fails, and the attempt ends there with a retryable
error. Or the listing succeeds, every listed subnet is deleted with success in list order,
and only then the network Delete is sent, as the last request; the attempt returns nil
exactly when that Delete succeeded and a retryable error when it failed. -/
theorem cascade_delete_order (projectId n : String) (api : Api) :
    ((∃ err, (cascadeDelete projectId n api).1 = some (RetryableError err)) ∧
      (cascadeDelete projectId n api).2.2 = [Event.listSubnets n none]) ∨
    (∃ done s rest,
      (∃ err, (cascadeDelete projectId n api).1 = some (RetryableError err)) ∧
      (cascadeDelete projectId n api).2.2 =
        Event.listSubnets n (some (done ++ s :: rest)) ::
          (done.map (fun t => Event.deleteSubnet n t true) ++
            [Event.deleteSubnet n s false])) ∨
    (∃ subnetIds ok,
      (cascadeDelete projectId n api).2.2 =
        Event.listSubnets n (some subnetIds) ::
          (subnetIds.map (fun t => Event.deleteSubnet n t true) ++
            [Event.deleteNetwork n ok]) ∧
      ((cascadeDelete projectId n api).1 = none ↔ ok = true) ∧
      (ok = false → ∃ err, (cascadeDelete projectId n api).1 = some (RetryableError err))) := by
  cases hg : getSubnetIds n api with
  | mk r api1 =>
    cases r with
    | error err =>
      rw [cascadeDelete_listFail projectId n api api1 err hg]
      exact Or.inl ⟨⟨_, rfl⟩, rfl⟩
    | ok subnetIds =>
      have hshape := deleteSubnets_shape n subnetIds api1
      cases hds : deleteSubnets n subnetIds api1 with
      | mk r2 rest2 =>
        obtain ⟨api2, evs⟩ := rest2
        rw [hds] at hshape
        simp only [] at hshape
        rcases hshape with ⟨h1, h2⟩ | ⟨done, s, rest, err, hsplit, h1, h2⟩
        · subst h1
          cases hdel : deleteNetwork n api2 with
          | mk r3 api3 =>
            cases r3 with
            | some err =>
              rw [cascadeDelete_networkFail projectId n api api1 api2 api3 subnetIds err evs
                hg hds hdel, h2]
              refine Or.inr (Or.inr ⟨subnetIds, false, rfl, ?_, fun _ => ⟨_, rfl⟩⟩)
              simp
            | none =>
              rw [cascadeDelete_done projectId n api api1 api2 api3 subnetIds evs hg hds hdel,
                h2]
              refine Or.inr (Or.inr ⟨subnetIds, true, rfl, ?_, fun h => ?_⟩)
              · simp
              · cases h
        · subst h1
          rw [cascadeDelete_subnetFail projectId n api api1 api2 subnetIds _ evs hg hds, h2,
            hsplit]
          exact Or.inr (Or.inl ⟨done, s, rest, ⟨_, rfl⟩, rfl⟩)

end Ovh
